import Mathlib

/-
Shallow embedding of `react-safe-lazy` (src/index.ts).

The repository wraps React's `lazy` with two recovery strategies: a bounded
immediate retry of the import (`tryImport`, driven by `importRetries`) and a
bounded full-page reload driven by a per-loader ledger persisted in
`sessionStorage` (`ForceReloadStorage`, driven by `forceReload.maxRetries`).

Modelling decisions:
* A JavaScript `Map<string, number>` is an insertion-ordered association list
  `FnMap := List (String × Int)`; `mapGet`, `mapSet`, `mapDelete` mirror
  `Map.get`, `Map.set` (replace in place or append) and `Map.delete`.
  JSON numbers are modelled as integers: the ledger only ever stores integer
  counts.
* The single `sessionStorage` slot under the configured storage key is a
  `StoredVal`: `absent` (`getItem` returns `null`), `malformed` (present but
  `JSON.parse` throws), or `json v` (present and parses to the JSON value `v`).
  `save` writes `JSON.stringify` of the entry array; we represent the stored
  string by its parsed JSON value, so `save` stores `json (encodeMap m)`.
* Components and errors are opaque artifacts, represented by `Nat` tags.
* A loader is a function `Nat → LoadOutcome` giving the outcome of its
  `i`-th invocation (0-based); `window.location.reload` is modelled by a
  counter in `World`.
-/

namespace ReactSafeLazy

/-- JSON values as produced by `JSON.parse` (numbers restricted to integers,
which is all the ledger ever writes). -/
inductive JVal where
  | null
  | bool (b : Bool)
  | num (n : Int)
  | str (s : String)
  | arr (xs : List JVal)
  | obj (fields : List (String × JVal))

/-- A JavaScript `Map<string, number>`: an insertion-ordered association list. -/
abbrev FnMap := List (String × Int)

/-- `Map.get`: the value at the first (and in a real `Map`, only) occurrence
of the key. -/
def mapGet (m : FnMap) (k : String) : Option Int :=
  match m with
  | [] => none
  | (k', v) :: rest => if k' = k then some v else mapGet rest k

/-- `Map.set`: replace the value at an existing key in place, otherwise append
the new entry at the end (JavaScript `Map` insertion-order semantics). -/
def mapSet (m : FnMap) (k : String) (v : Int) : FnMap :=
  match m with
  | [] => [(k, v)]
  | (k', v') :: rest => if k' = k then (k, v) :: rest else (k', v') :: mapSet rest k v

/-- `Map.delete`: remove the entry at the key (the first occurrence; a real
`Map` has at most one). -/
def mapDelete (m : FnMap) (k : String) : FnMap :=
  match m with
  | [] => []
  | (k', v') :: rest => if k' = k then rest else (k', v') :: mapDelete rest k

/-- `new Map(pairs)`: fold `Map.set` over the pairs, starting from the empty
map (later duplicate keys overwrite in place). -/
def buildMap (ps : List (String × Int)) : FnMap :=
  ps.foldl (fun m p => mapSet m p.1 p.2) []

/-- The filter in `getMap`:
`Array.isArray(value) && typeof value[0] === 'string' && typeof value[1] === 'number'`,
fused with the extraction `new Map` performs (`value[0]`, `value[1]`; any
further elements are ignored). Returns `none` exactly when the filter drops
the entry. -/
def decodeEntry (v : JVal) : Option (String × Int) :=
  match v with
  | .arr (.str k :: .num n :: _) => some (k, n)
  | _ => none

/-- `[...stored.entries()]` as serialized by `save`: each entry becomes the
two-element JSON array `[key, count]`. -/
def encodeEntries (m : FnMap) : List JVal :=
  m.map fun p => JVal.arr [JVal.str p.1, JVal.num p.2]

/-- `JSON.stringify([...stored.entries()])`, represented by its JSON value. -/
def encodeMap (m : FnMap) : JVal :=
  .arr (encodeEntries m)

/-- The raw `sessionStorage` slot under the storage key: absent
(`getItem` = `null`), present but not valid JSON (`JSON.parse` throws), or
present with parsed JSON value `v`. -/
inductive StoredVal where
  | absent
  | malformed
  | json (v : JVal)

/-- `defaultStorageKey` from src/index.ts. -/
def defaultStorageKey : String := "forceReloadedImportFunctions"

/-- `ForceReloadStorage.getMap`: parse the stored value.
`stored ? JSON.parse(stored) : {}` makes an absent value parse to a non-array,
so `new Map(undefined)` is empty; a parse failure is caught and yields an
empty map; an array is filtered entrywise and the surviving `[string, number]`
heads become map entries. -/
def getMap (stored : StoredVal) : FnMap :=
  match stored with
  | .absent => []
  | .malformed => []
  | .json (.arr xs) => buildMap (xs.filterMap decodeEntry)
  | .json _ => []

/-- `ForceReloadStorage.addFunction`: read the map, set
`count[k] = (count.get(k) ?? 0) + 1`, save. -/
def addFunction (stored : StoredVal) (functionName : String) : StoredVal :=
  let m := getMap stored
  .json (encodeMap (mapSet m functionName ((mapGet m functionName).getD 0 + 1)))

/-- `ForceReloadStorage.removeFunction`: read the map, delete the key, save. -/
def removeFunction (stored : StoredVal) (functionName : String) : StoredVal :=
  .json (encodeMap (mapDelete (getMap stored) functionName))

/-- All keys in the map are distinct (true of every map a JavaScript `Map`
can denote, and of every map `getMap` returns). -/
def nodupKeys : FnMap → Bool
  | [] => true
  | (k, _) :: rest => (mapGet rest k).isNone && nodupKeys rest

/-- Every count in the stored ledger is non-negative (the data-model
invariant; `getMap`'s filter alone admits any integer). -/
def nonnegCounts (stored : StoredVal) : Bool :=
  (getMap stored).all fun p => decide (0 ≤ p.2)

/-- Resolved `ForceReloadConfig`: `maxRetries` plus the optional
`storageKey` (the `ForceReloadStorage` constructor substitutes
`defaultStorageKey` when it is absent). -/
structure ForceReloadConfig where
  maxRetries : Int
  storageKey : Option String
deriving DecidableEq

/-- The `Partial<ForceReloadConfig>` shape accepted by `SafeLazyConfigInit`:
both fields optional. -/
structure ForceReloadConfigInit where
  maxRetries : Option Int
  storageKey : Option String
deriving DecidableEq

/-- The `forceReload` field of `SafeLazyConfigInit`: omitted (`undefined`),
`false`, or a partial configuration object. -/
inductive ForceReloadInit where
  | omitted
  | disabled
  | obj (p : ForceReloadConfigInit)

/-- `SafeLazyConfigInit` from src/index.ts: every field optional. -/
structure SafeLazyConfigInit where
  forceReload : ForceReloadInit
  importRetries : Option Int

/-- Resolved `SafeLazyConfig`. -/
structure SafeLazyConfig where
  forceReload : ForceReloadConfig
  importRetries : Int
deriving DecidableEq

/-- `createConfig`: `{ maxRetries: 1, ...(object ? init.forceReload :
init.forceReload === false ? { maxRetries: 0 } : undefined) }` and
`typeof init.importRetries === 'number' ? init.importRetries : 0`.
Spreading the partial object keeps `maxRetries = 1` only when the partial
omits it, and leaves `storageKey` exactly as supplied (possibly absent). -/
def createConfig (init : SafeLazyConfigInit) : SafeLazyConfig :=
  { forceReload :=
      match init.forceReload with
      | .omitted => { maxRetries := 1, storageKey := none }
      | .disabled => { maxRetries := 0, storageKey := none }
      | .obj p => { maxRetries := p.maxRetries.getD 1, storageKey := p.storageKey }
    importRetries := init.importRetries.getD 0 }

/-- The storage key the factory's `ForceReloadStorage` actually uses:
`new ForceReloadStorage(forceReload.storageKey)` with the constructor's
default parameter `defaultStorageKey`. -/
def resolvedStorageKey (cfg : SafeLazyConfig) : String :=
  cfg.forceReload.storageKey.getD defaultStorageKey

/-- Outcome of one invocation of the user-supplied import function: resolve
with a module whose component is tagged `c`, or reject with the error tagged
`e`. -/
inductive LoadOutcome where
  | ok (c : Nat)
  | err (e : Nat)
deriving DecidableEq

/-- The invocation rejected. -/
def isErr : LoadOutcome → Bool
  | .ok _ => false
  | .err _ => true

/-- Recursion core of `tryImport`. The source keeps a closure counter
`retried` (starting at 0) and retries while `retried < importRetries`;
`remaining = (importRetries - retried).toNat` is the number of retries the
guard still admits, so the guard holds exactly when `remaining > 0`.
`idx` is the index of the next invocation; the second component of the
result counts invocations performed. -/
def tryImportGo (outcomes : Nat → LoadOutcome) : Nat → Nat → LoadOutcome × Nat
  | remaining, idx =>
    match outcomes idx with
    | .ok c => (.ok c, 1)
    | .err e =>
      match remaining with
      | 0 => (.err e, 1)
      | n + 1 =>
        let r := tryImportGo outcomes n (idx + 1)
        (r.1, r.2 + 1)

/-- `tryImport` from `safeLazy`: invoke the loader; on rejection retry while
the closure counter `retried` (starting at 0) is below `importRetries`,
otherwise re-throw the last error. Returns the final outcome and the number
of invocations performed. -/
def tryImport (outcomes : Nat → LoadOutcome) (importRetries : Int) : LoadOutcome × Nat :=
  tryImportGo outcomes importRetries.toNat 0

/-- The observable state the wrapper touches: the `sessionStorage` slot under
the factory's storage key, and how many times `window.location.reload` has
been called. -/
structure World where
  storage : StoredVal
  reloads : Nat

/-- What the function handed to React's `lazy` settles to: the loaded module
(component tag), the `{ default: () => null }` placeholder returned after
scheduling a reload, or a re-thrown error. -/
inductive LazyResult where
  | loaded (c : Nat)
  | nullComponent
  | thrown (e : Nat)
deriving DecidableEq

/-- The body of the function `safeLazy` hands to `lazy`: run `tryImport`; on
success remove the ledger entry when force reload is enabled
(`forceReload.maxRetries > 0`) and return the component; on failure compare
the persisted count (`?? 0`) with `maxRetries` and either increment the
ledger, reload the page and return the null placeholder, or re-throw. -/
def safeLazyLoad (cfg : SafeLazyConfig) (functionString : String)
    (outcomes : Nat → LoadOutcome) (w : World) : LazyResult × World :=
  match (tryImport outcomes cfg.importRetries).1 with
  | .ok c =>
    if 0 < cfg.forceReload.maxRetries then
      (.loaded c, { storage := removeFunction w.storage functionString, reloads := w.reloads })
    else
      (.loaded c, w)
  | .err e =>
    if (mapGet (getMap w.storage) functionString).getD 0 < cfg.forceReload.maxRetries then
      (.nullComponent, { storage := addFunction w.storage functionString, reloads := w.reloads + 1 })
    else
      (.thrown e, w)

/-- Iterated renders of a component wrapped by the same factory: render `n`
runs the wrapper on the loader's outcome sequence `outs n` (each render is a
fresh page process, so the retry counter restarts at 0) and threads the
world through. -/
def runRenders (cfg : SafeLazyConfig) (functionString : String)
    (outs : Nat → Nat → LoadOutcome) (w : World) : Nat → World
  | 0 => w
  | n + 1 =>
    (safeLazyLoad cfg functionString (outs n) (runRenders cfg functionString outs w n)).2

/-- A ledger mutation: `addFunction` or `removeFunction` at a key. -/
inductive LedgerOp where
  | add (k : String)
  | removeKey (k : String)

/-- Apply one ledger mutation to the stored slot. -/
def applyOp (s : StoredVal) : LedgerOp → StoredVal
  | .add k => addFunction s k
  | .removeKey k => removeFunction s k

/-- Apply a sequence of ledger mutations, oldest first. -/
def applyOps (s : StoredVal) (ops : List LedgerOp) : StoredVal :=
  ops.foldl applyOp s

/-! ### Association-list lemmas -/

theorem mapGet_mapSet_self (m : FnMap) (k : String) (v : Int) :
    mapGet (mapSet m k v) k = some v := by
  induction m with
  | nil => simp [mapSet, mapGet]
  | cons p rest ih =>
    by_cases h : p.1 = k
    · simp [mapSet, mapGet, h]
    · simp [mapSet, mapGet, h, ih]

theorem mapGet_mapSet_ne (m : FnMap) (k k' : String) (v : Int) (h : k' ≠ k) :
    mapGet (mapSet m k v) k' = mapGet m k' := by
  have hkk : ¬ k = k' := fun hk => h hk.symm
  induction m with
  | nil => simp [mapSet, mapGet, hkk]
  | cons p rest ih =>
    by_cases hp : p.1 = k
    · have hp' : ¬ p.1 = k' := by rw [hp]; exact hkk
      simp only [mapSet, if_pos hp, mapGet, if_neg hkk, if_neg hp']
    · by_cases hq : p.1 = k'
      · simp only [mapSet, if_neg hp, mapGet, if_pos hq]
      · simp only [mapSet, if_neg hp, mapGet, if_neg hq, ih]

theorem mapGet_mapDelete_self (m : FnMap) (k : String) (h : nodupKeys m = true) :
    mapGet (mapDelete m k) k = none := by
  induction m with
  | nil => simp [mapDelete, mapGet]
  | cons p rest ih =>
    simp only [nodupKeys, Bool.and_eq_true, Option.isNone_iff_eq_none] at h
    by_cases hp : p.1 = k
    · simp only [mapDelete, if_pos hp]
      exact hp ▸ h.1
    · simp [mapDelete, mapGet, hp, ih h.2]

theorem mapGet_mapDelete_ne (m : FnMap) (k k' : String) (h : k' ≠ k) :
    mapGet (mapDelete m k) k' = mapGet m k' := by
  induction m with
  | nil => simp [mapDelete]
  | cons p rest ih =>
    by_cases hp : p.1 = k
    · have hp' : ¬ p.1 = k' := by rw [hp]; exact fun hk => h hk.symm
      simp only [mapDelete, if_pos hp, mapGet, if_neg hp']
    · by_cases hq : p.1 = k'
      · simp only [mapDelete, if_neg hp, mapGet, if_pos hq]
      · simp only [mapDelete, if_neg hp, mapGet, if_neg hq, ih]

theorem nodupKeys_mapSet (m : FnMap) (k : String) (v : Int) (h : nodupKeys m = true) :
    nodupKeys (mapSet m k v) = true := by
  induction m with
  | nil => simp [mapSet, nodupKeys, mapGet]
  | cons p rest ih =>
    simp only [nodupKeys, Bool.and_eq_true, Option.isNone_iff_eq_none] at h
    by_cases hp : p.1 = k
    · simp only [mapSet, hp, if_pos rfl, nodupKeys, Bool.and_eq_true,
        Option.isNone_iff_eq_none]
      exact ⟨hp ▸ h.1, h.2⟩
    · simp only [mapSet, if_neg hp, nodupKeys, Bool.and_eq_true,
        Option.isNone_iff_eq_none]
    -- the head key differs from `k`, so its absence survives the update
      refine ⟨?_, ih h.2⟩
      rw [mapGet_mapSet_ne rest k p.1 v hp]
      exact h.1

theorem nodupKeys_mapDelete (m : FnMap) (k : String) (h : nodupKeys m = true) :
    nodupKeys (mapDelete m k) = true := by
  induction m with
  | nil => simp [mapDelete, nodupKeys]
  | cons p rest ih =>
    simp only [nodupKeys, Bool.and_eq_true, Option.isNone_iff_eq_none] at h
    by_cases hp : p.1 = k
    · simpa [mapDelete, hp] using h.2
    · simp only [mapDelete, if_neg hp, nodupKeys, Bool.and_eq_true,
        Option.isNone_iff_eq_none]
      refine ⟨?_, ih h.2⟩
      rw [mapGet_mapDelete_ne rest k p.1 hp]
      exact h.1

theorem mem_mapSet (m : FnMap) (k : String) (v : Int) (p : String × Int)
    (h : p ∈ mapSet m k v) : p ∈ m ∨ p = (k, v) := by
  induction m with
  | nil => simpa [mapSet] using h
  | cons q rest ih =>
    by_cases hq : q.1 = k
    · rw [mapSet, if_pos hq] at h
      rcases List.mem_cons.mp h with h | h
      · exact Or.inr h
      · exact Or.inl (List.mem_cons_of_mem q h)
    · rw [mapSet, if_neg hq] at h
      rcases List.mem_cons.mp h with h | h
      · exact Or.inl (h ▸ List.mem_cons_self q rest)
      · rcases ih h with h | h
        · exact Or.inl (List.mem_cons_of_mem q h)
        · exact Or.inr h

theorem mem_mapDelete (m : FnMap) (k : String) (p : String × Int)
    (h : p ∈ mapDelete m k) : p ∈ m := by
  induction m with
  | nil => simp [mapDelete] at h
  | cons q rest ih =>
    by_cases hq : q.1 = k
    · rw [mapDelete, if_pos hq] at h
      exact List.mem_cons_of_mem q h
    · rw [mapDelete, if_neg hq] at h
      rcases List.mem_cons.mp h with h | h
      · exact h ▸ List.mem_cons_self q rest
      · exact List.mem_cons_of_mem q (ih h)

theorem mapGet_isSome_of_mem (m : FnMap) (p : String × Int) (h : p ∈ m) :
    (mapGet m p.1).isSome = true := by
  induction m with
  | nil => simp at h
  | cons q rest ih =>
    by_cases hq : q.1 = p.1
    · simp [mapGet, hq]
    · rcases List.mem_cons.mp h with h | h
      · exact absurd (h ▸ rfl) hq
      · simp [mapGet, hq, ih h]

theorem mapSet_of_get_none (m : FnMap) (k : String) (v : Int)
    (h : mapGet m k = none) : mapSet m k v = m ++ [(k, v)] := by
  induction m with
  | nil => simp [mapSet]
  | cons q rest ih =>
    rw [mapGet] at h
    by_cases hq : q.1 = k
    · simp [hq] at h
    · rw [if_neg hq] at h
      simp [mapSet, hq, ih h]

theorem mapGet_append_left (a b : FnMap) (k : String) (h : mapGet a k = none) :
    mapGet (a ++ b) k = mapGet b k := by
  induction a with
  | nil => simp
  | cons q rest ih =>
    rw [mapGet] at h
    by_cases hq : q.1 = k
    · simp [hq] at h
    · rw [if_neg hq] at h
      simpa [mapGet, hq] using ih h

/-! ### `getMap` normalization and round-trip -/

theorem buildMap_go (ps : List (String × Int)) :
    ∀ acc : FnMap, nodupKeys ps = true → (∀ p ∈ ps, mapGet acc p.1 = none) →
      ps.foldl (fun m p => mapSet m p.1 p.2) acc = acc ++ ps := by
  induction ps with
  | nil => intro acc _ _; simp
  | cons p rest ih =>
    intro acc hnd hacc
    simp only [nodupKeys, Bool.and_eq_true, Option.isNone_iff_eq_none] at hnd
    have hset : mapSet acc p.1 p.2 = acc ++ [(p.1, p.2)] :=
      mapSet_of_get_none acc p.1 p.2 (hacc p (List.mem_cons_self p rest))
    have hrest : ∀ q ∈ rest, mapGet (acc ++ [(p.1, p.2)]) q.1 = none := by
      intro q hq
      rw [mapGet_append_left acc [(p.1, p.2)] q.1 (hacc q (List.mem_cons_of_mem p hq))]
      have hne : p.1 ≠ q.1 := by
        intro he
        have := mapGet_isSome_of_mem rest q hq
        rw [← he, hnd.1] at this
        simp at this
      simp [mapGet, hne]
    calc List.foldl (fun m q => mapSet m q.1 q.2) acc (p :: rest)
        = List.foldl (fun m q => mapSet m q.1 q.2) (acc ++ [(p.1, p.2)]) rest := by
          simp [hset]
      _ = (acc ++ [(p.1, p.2)]) ++ rest := ih (acc ++ [(p.1, p.2)]) hnd.2 hrest
      _ = acc ++ p :: rest := by simp

theorem buildMap_self (m : FnMap) (h : nodupKeys m = true) : buildMap m = m := by
  have := buildMap_go m [] h (by intro p _; rfl)
  simpa [buildMap] using this

theorem nodupKeys_foldl_mapSet (ps : List (String × Int)) :
    ∀ acc : FnMap, nodupKeys acc = true →
      nodupKeys (ps.foldl (fun m p => mapSet m p.1 p.2) acc) = true := by
  induction ps with
  | nil => intro acc h; exact h
  | cons p rest ih =>
    intro acc h
    exact ih (mapSet acc p.1 p.2) (nodupKeys_mapSet acc p.1 p.2 h)

theorem nodupKeys_buildMap (ps : List (String × Int)) :
    nodupKeys (buildMap ps) = true :=
  nodupKeys_foldl_mapSet ps [] rfl

theorem nodupKeys_getMap (s : StoredVal) : nodupKeys (getMap s) = true := by
  match s with
  | .absent => rfl
  | .malformed => rfl
  | .json (.arr xs) => exact nodupKeys_buildMap (xs.filterMap decodeEntry)
  | .json .null => rfl
  | .json (.bool b) => rfl
  | .json (.num n) => rfl
  | .json (.str t) => rfl
  | .json (.obj fs) => rfl

theorem filterMap_decode_encode (m : FnMap) :
    (encodeEntries m).filterMap decodeEntry = m := by
  induction m with
  | nil => rfl
  | cons p rest ih => simp [encodeEntries, decodeEntry, List.filterMap_cons] at ih ⊢; exact ih

theorem getMap_encodeMap (m : FnMap) (h : nodupKeys m = true) :
    getMap (.json (encodeMap m)) = m := by
  show buildMap ((encodeEntries m).filterMap decodeEntry) = m
  rw [filterMap_decode_encode m]
  exact buildMap_self m h

theorem getMap_addFunction (s : StoredVal) (k : String) :
    getMap (addFunction s k) =
      mapSet (getMap s) k ((mapGet (getMap s) k).getD 0 + 1) := by
  show getMap (.json (encodeMap _)) = _
  exact getMap_encodeMap _ (nodupKeys_mapSet _ k _ (nodupKeys_getMap s))

theorem getMap_removeFunction (s : StoredVal) (k : String) :
    getMap (removeFunction s k) = mapDelete (getMap s) k := by
  show getMap (.json (encodeMap _)) = _
  exact getMap_encodeMap _ (nodupKeys_mapDelete _ k (nodupKeys_getMap s))

/-! ### `tryImport` lemmas -/

theorem tryImportGo_ok (outcomes : Nat → LoadOutcome) (remaining idx c : Nat)
    (h : outcomes idx = .ok c) :
    tryImportGo outcomes remaining idx = (.ok c, 1) := by
  match remaining with
  | 0 => rw [tryImportGo, h]
  | n + 1 => rw [tryImportGo, h]

theorem tryImportGo_err_zero (outcomes : Nat → LoadOutcome) (idx e : Nat)
    (h : outcomes idx = .err e) :
    tryImportGo outcomes 0 idx = (.err e, 1) := by
  rw [tryImportGo, h]

theorem tryImportGo_err_succ (outcomes : Nat → LoadOutcome) (n idx e : Nat)
    (h : outcomes idx = .err e) :
    tryImportGo outcomes (n + 1) idx =
      ((tryImportGo outcomes n (idx + 1)).1, (tryImportGo outcomes n (idx + 1)).2 + 1) := by
  rw [tryImportGo, h]

theorem tryImportGo_ok_after (outcomes : Nat → LoadOutcome) (c : Nat) :
    ∀ n fuel idx, (∀ i, i < n → isErr (outcomes (idx + i)) = true) →
      outcomes (idx + n) = .ok c → n ≤ fuel →
      tryImportGo outcomes fuel idx = (.ok c, n + 1) := by
  intro n
  induction n with
  | zero =>
    intro fuel idx _ hok _
    exact tryImportGo_ok outcomes fuel idx c hok
  | succ m ih =>
    intro fuel idx herr hok hle
    have h0 : isErr (outcomes idx) = true := by
      have := herr 0 (Nat.succ_pos m)
      simpa using this
    obtain ⟨e, he⟩ : ∃ e, outcomes idx = .err e := by
      cases ho : outcomes idx with
      | ok c' => rw [ho] at h0; simp [isErr] at h0
      | err e => exact ⟨e, rfl⟩
    obtain ⟨f, rfl⟩ : ∃ f, fuel = f + 1 := by
      cases fuel with
      | zero => exact absurd hle (by omega)
      | succ f => exact ⟨f, rfl⟩
    rw [tryImportGo_err_succ outcomes f idx e he]
    have hrec : tryImportGo outcomes f (idx + 1) = (.ok c, m + 1) := by
      refine ih f (idx + 1) ?_ ?_ (by omega)
      · intro i hi
        have := herr (i + 1) (by omega)
        simpa [Nat.add_assoc, Nat.add_comm 1 i] using this
      · have : idx + 1 + m = idx + (m + 1) := by omega
        rw [this]
        exact hok
    rw [hrec]

theorem tryImportGo_err_exhaust (outcomes : Nat → LoadOutcome) (e : Nat) :
    ∀ fuel idx, (∀ i, i < fuel → isErr (outcomes (idx + i)) = true) →
      outcomes (idx + fuel) = .err e →
      tryImportGo outcomes fuel idx = (.err e, fuel + 1) := by
  intro fuel
  induction fuel with
  | zero =>
    intro idx _ hlast
    exact tryImportGo_err_zero outcomes idx e (by simpa using hlast)
  | succ m ih =>
    intro idx herr hlast
    have h0 : isErr (outcomes idx) = true := by
      have := herr 0 (Nat.succ_pos m)
      simpa using this
    obtain ⟨e0, he0⟩ : ∃ e0, outcomes idx = .err e0 := by
      cases ho : outcomes idx with
      | ok c' => rw [ho] at h0; simp [isErr] at h0
      | err e0 => exact ⟨e0, rfl⟩
    rw [tryImportGo_err_succ outcomes m idx e0 he0]
    have hrec : tryImportGo outcomes m (idx + 1) = (.err e, m + 1) := by
      refine ih (idx + 1) ?_ ?_
      · intro i hi
        have := herr (i + 1) (by omega)
        simpa [Nat.add_assoc, Nat.add_comm 1 i] using this
      · have : idx + 1 + m = idx + (m + 1) := by omega
        rw [this]
        exact hlast
    rw [hrec]

theorem tryImportGo_const_err (e : Nat) :
    ∀ fuel idx, tryImportGo (fun _ => .err e) fuel idx = (.err e, fuel + 1) := by
  intro fuel
  induction fuel with
  | zero => intro idx; rfl
  | succ m ih =>
    intro idx
    rw [tryImportGo_err_succ (fun _ => .err e) m idx e rfl, ih (idx + 1)]

theorem tryImport_const_err (e : Nat) (importRetries : Int) :
    tryImport (fun _ => .err e) importRetries = (.err e, importRetries.toNat + 1) :=
  tryImportGo_const_err e importRetries.toNat 0

/-! ### `safeLazyLoad` branch characterizations -/

theorem safeLazyLoad_of_ok (cfg : SafeLazyConfig) (k : String)
    (outcomes : Nat → LoadOutcome) (w : World) (c : Nat)
    (h : (tryImport outcomes cfg.importRetries).1 = .ok c) :
    safeLazyLoad cfg k outcomes w =
      if 0 < cfg.forceReload.maxRetries then
        (.loaded c, { storage := removeFunction w.storage k, reloads := w.reloads })
      else
        (.loaded c, w) := by
  unfold safeLazyLoad
  rw [h]

theorem safeLazyLoad_of_err (cfg : SafeLazyConfig) (k : String)
    (outcomes : Nat → LoadOutcome) (w : World) (e : Nat)
    (h : (tryImport outcomes cfg.importRetries).1 = .err e) :
    safeLazyLoad cfg k outcomes w =
      if (mapGet (getMap w.storage) k).getD 0 < cfg.forceReload.maxRetries then
        (.nullComponent, { storage := addFunction w.storage k, reloads := w.reloads + 1 })
      else
        (.thrown e, w) := by
  unfold safeLazyLoad
  rw [h]

theorem mem_of_mapGet_eq_some (m : FnMap) (k : String) (v : Int)
    (h : mapGet m k = some v) : (k, v) ∈ m := by
  induction m with
  | nil => simp [mapGet] at h
  | cons p rest ih =>
    rw [mapGet] at h
    by_cases hp : p.1 = k
    · rw [if_pos hp] at h
      obtain ⟨a, b⟩ := p
      simp only at hp
      injection h with h
      subst hp
      subst h
      exact List.mem_cons_self _ _
    · rw [if_neg hp] at h
      exact List.mem_cons_of_mem p (ih h)

theorem getD_nonneg_of_nonnegCounts (s : StoredVal) (k : String)
    (h : nonnegCounts s = true) : 0 ≤ (mapGet (getMap s) k).getD 0 := by
  cases hg : mapGet (getMap s) k with
  | none => simp
  | some v =>
    have hmem := mem_of_mapGet_eq_some _ _ _ hg
    rw [nonnegCounts, List.all_eq_true] at h
    have := h _ hmem
    simpa using this

theorem nonnegCounts_addFunction (s : StoredVal) (k : String)
    (h : nonnegCounts s = true) : nonnegCounts (addFunction s k) = true := by
  have hk := getD_nonneg_of_nonnegCounts s k h
  rw [nonnegCounts, List.all_eq_true] at h ⊢
  rw [getMap_addFunction]
  intro p hp
  rcases mem_mapSet _ _ _ p hp with hmem | hpe
  · exact h p hmem
  · subst hpe
    simp only [decide_eq_true_eq]
    omega

theorem nonnegCounts_removeFunction (s : StoredVal) (k : String)
    (h : nonnegCounts s = true) : nonnegCounts (removeFunction s k) = true := by
  rw [nonnegCounts, List.all_eq_true] at h ⊢
  rw [getMap_removeFunction]
  intro p hp
  exact h p (mem_mapDelete _ _ p hp)

theorem nonnegCounts_applyOps (ops : List LedgerOp) :
    ∀ s : StoredVal, nonnegCounts s = true → nonnegCounts (applyOps s ops) = true := by
  induction ops with
  | nil => intro s h; exact h
  | cons op rest ih =>
    intro s h
    show nonnegCounts (applyOps (applyOp s op) rest) = true
    refine ih _ ?_
    cases op with
    | add k => exact nonnegCounts_addFunction s k h
    | removeKey k => exact nonnegCounts_removeFunction s k h

/-! ### Behaviour with force reload disabled (`maxRetries ≤ 0`) -/

theorem safeLazyLoad_maxRetries_nonpos (cfg : SafeLazyConfig) (k : String)
    (outcomes : Nat → LoadOutcome) (w : World)
    (hm : cfg.forceReload.maxRetries ≤ 0) (hw : nonnegCounts w.storage = true) :
    (safeLazyLoad cfg k outcomes w).2 = w ∧
    (∀ c, (tryImport outcomes cfg.importRetries).1 = .ok c →
      (safeLazyLoad cfg k outcomes w).1 = .loaded c) ∧
    (∀ e, (tryImport outcomes cfg.importRetries).1 = .err e →
      (safeLazyLoad cfg k outcomes w).1 = .thrown e) := by
  have hcnt := getD_nonneg_of_nonnegCounts w.storage k hw
  cases hres : (tryImport outcomes cfg.importRetries).1 with
  | ok c0 =>
    have heq := safeLazyLoad_of_ok cfg k outcomes w c0 hres
    rw [if_neg (by omega : ¬ 0 < cfg.forceReload.maxRetries)] at heq
    refine ⟨by rw [heq], ?_, ?_⟩
    · intro c hc
      injection hc with hc
      subst hc
      rw [heq]
    · intro e he
      exact absurd he (by simp)
  | err e0 =>
    have heq := safeLazyLoad_of_err cfg k outcomes w e0 hres
    rw [if_neg (by omega :
      ¬ (mapGet (getMap w.storage) k).getD 0 < cfg.forceReload.maxRetries)] at heq
    refine ⟨by rw [heq], ?_, ?_⟩
    · intro c hc
      exact absurd hc (by simp)
    · intro e he
      injection he with he
      subst he
      rw [heq]

theorem runRenders_maxRetries_nonpos (cfg : SafeLazyConfig) (k : String)
    (outs : Nat → Nat → LoadOutcome) (w : World)
    (hm : cfg.forceReload.maxRetries ≤ 0) (hw : nonnegCounts w.storage = true) :
    ∀ n, runRenders cfg k outs w n = w := by
  intro n
  induction n with
  | zero => rfl
  | succ n ih =>
    simp only [runRenders, ih]
    exact (safeLazyLoad_maxRetries_nonpos cfg k (outs n) w hm hw).1

/-! ### The persistently-failing run (claim C1's engine) -/

theorem safeLazyLoad_fail_reload (mval : Int) (sk : Option String) (ir : Int)
    (e : Nat) (k : String) (w : World)
    (hc : (mapGet (getMap w.storage) k).getD 0 < mval) :
    safeLazyLoad ⟨⟨mval, sk⟩, ir⟩ k (fun _ => .err e) w =
      (.nullComponent, ⟨addFunction w.storage k, w.reloads + 1⟩) := by
  rw [safeLazyLoad_of_err _ k _ _ e (by rw [tryImport_const_err]), if_pos hc]

theorem safeLazyLoad_fail_rethrow (mval : Int) (sk : Option String) (ir : Int)
    (e : Nat) (k : String) (w : World)
    (hc : ¬ (mapGet (getMap w.storage) k).getD 0 < mval) :
    safeLazyLoad ⟨⟨mval, sk⟩, ir⟩ k (fun _ => .err e) w = (.thrown e, w) := by
  rw [safeLazyLoad_of_err _ k _ _ e (by rw [tryImport_const_err]), if_neg hc]

theorem runRenders_persistent_fail (m : Nat) (ir : Int) (e : Nat) (k : String)
    (sk : Option String) :
    ∀ i, i ≤ m →
      getMap (runRenders ⟨⟨(m : Int), sk⟩, ir⟩ k (fun _ _ => .err e)
          ⟨.absent, 0⟩ i).storage = (if i = 0 then [] else [(k, (i : Int))]) ∧
      (runRenders ⟨⟨(m : Int), sk⟩, ir⟩ k (fun _ _ => .err e) ⟨.absent, 0⟩ i).reloads = i := by
  intro i
  induction i with
  | zero => intro _; exact ⟨rfl, rfl⟩
  | succ n ih =>
    intro h
    obtain ⟨hs, hr⟩ := ih (by omega)
    have hcount : (mapGet (getMap (runRenders ⟨⟨(m : Int), sk⟩, ir⟩ k
        (fun _ _ => .err e) ⟨.absent, 0⟩ n).storage) k).getD 0 = (n : Int) := by
      rw [hs]
      by_cases hn : n = 0
      · simp [hn, mapGet]
      · simp [hn, mapGet]
    have hlt : ((n : Int)) < (m : Int) := by exact_mod_cast (h : n < m)
    simp only [runRenders]
    rw [safeLazyLoad_fail_reload (m : Int) sk ir e k _ (by rw [hcount]; exact hlt)]
    constructor
    · show getMap (addFunction _ k) = _
      rw [getMap_addFunction, hcount, hs]
      by_cases hn : n = 0
      · subst hn
        simp [mapSet]
      · simp only [if_neg hn, if_neg (Nat.succ_ne_zero n)]
        simp [mapSet]
    · show _ + 1 = n + 1
      rw [hr]

/-! ### Claim theorems -/

/-- C1: for every non-negative `maxRetries = m`, a persistently-failing loader
triggers exactly `m` page reloads — after `i ≤ m` renders the reload counter is
`i`, and each of the first `m` renders returns the null placeholder — the
ledger count for the loader's key reaches `m`, and on the `(m+1)`-th exhausted
attempt the original load failure is re-thrown with no further reload. -/
theorem C1_persistent_failure_reload_budget (m : Nat) (ir : Int) (e : Nat)
    (k : String) (sk : Option String) :
    (∀ i, i ≤ m →
      (runRenders ⟨⟨(m : Int), sk⟩, ir⟩ k (fun _ _ => .err e) ⟨.absent, 0⟩ i).reloads = i) ∧
    (∀ i, i < m →
      (safeLazyLoad ⟨⟨(m : Int), sk⟩, ir⟩ k (fun _ => .err e)
        (runRenders ⟨⟨(m : Int), sk⟩, ir⟩ k (fun _ _ => .err e) ⟨.absent, 0⟩ i)).1 =
        .nullComponent) ∧
    (mapGet (getMap (runRenders ⟨⟨(m : Int), sk⟩, ir⟩ k (fun _ _ => .err e)
        ⟨.absent, 0⟩ m).storage) k).getD 0 = (m : Int) ∧
    safeLazyLoad ⟨⟨(m : Int), sk⟩, ir⟩ k (fun _ => .err e)
        (runRenders ⟨⟨(m : Int), sk⟩, ir⟩ k (fun _ _ => .err e) ⟨.absent, 0⟩ m) =
      (.thrown e, runRenders ⟨⟨(m : Int), sk⟩, ir⟩ k (fun _ _ => .err e) ⟨.absent, 0⟩ m) := by
  have hcnt : ∀ i, i ≤ m →
      (mapGet (getMap (runRenders ⟨⟨(m : Int), sk⟩, ir⟩ k (fun _ _ => .err e)
        ⟨.absent, 0⟩ i).storage) k).getD 0 = (i : Int) := by
    intro i hi
    obtain ⟨hs, _⟩ := runRenders_persistent_fail m ir e k sk i hi
    rw [hs]
    by_cases hn : i = 0
    · simp [hn, mapGet]
    · simp [hn, mapGet]
  refine ⟨?_, ?_, hcnt m (le_refl m), ?_⟩
  · intro i hi
    exact (runRenders_persistent_fail m ir e k sk i hi).2
  · intro i hi
    rw [safeLazyLoad_fail_reload (m : Int) sk ir e k _
      (by rw [hcnt i (le_of_lt hi)]; exact_mod_cast hi)]
  · exact safeLazyLoad_fail_rethrow (m : Int) sk ir e k _
      (by rw [hcnt m (le_refl m)]; exact lt_irrefl _)

/-- Witness for C1 at `m = 2`, `importRetries = 0`: two renders yield two
reloads and the third render re-throws. -/
theorem C1_persistent_failure_reload_budget_witness :
    (2 ≤ 2 ∧
      (runRenders ⟨⟨((2 : Nat) : Int), none⟩, 0⟩ "f" (fun _ _ => .err 5)
        ⟨.absent, 0⟩ 2).reloads = 2) ∧
    safeLazyLoad ⟨⟨((2 : Nat) : Int), none⟩, 0⟩ "f" (fun _ => .err 5)
        (runRenders ⟨⟨((2 : Nat) : Int), none⟩, 0⟩ "f" (fun _ _ => .err 5) ⟨.absent, 0⟩ 2) =
      (.thrown 5, runRenders ⟨⟨((2 : Nat) : Int), none⟩, 0⟩ "f" (fun _ _ => .err 5)
        ⟨.absent, 0⟩ 2) :=
  ⟨⟨by decide, (C1_persistent_failure_reload_budget 2 0 5 "f" none).1 2 (by decide)⟩,
    (C1_persistent_failure_reload_budget 2 0 5 "f" none).2.2.2⟩

/-- C2: with `importRetries = r`, a loader failing exactly `r` times and then
succeeding resolves with the successful module after exactly `r + 1`
invocations, and a loader failing on all of its first `r + 1` invocations
exhausts retries after exactly `r + 1` invocations, the last failure passing
outward to the reload decision. -/
theorem C2_retry_invocation_counts (r : Nat) (outA outB : Nat → LoadOutcome)
    (c e : Nat)
    (hA1 : ∀ i, i < r → isErr (outA i) = true) (hA2 : outA r = .ok c)
    (hB1 : ∀ i, i < r → isErr (outB i) = true) (hB2 : outB r = .err e) :
    tryImport outA ((r : Nat) : Int) = (.ok c, r + 1) ∧
    tryImport outB ((r : Nat) : Int) = (.err e, r + 1) := by
  have ht : (((r : Nat) : Int)).toNat = r := by omega
  constructor
  · show tryImportGo outA (((r : Nat) : Int)).toNat 0 = (.ok c, r + 1)
    rw [ht]
    exact tryImportGo_ok_after outA c r r 0 (by simpa using hA1) (by simpa using hA2)
      (le_refl r)
  · show tryImportGo outB (((r : Nat) : Int)).toNat 0 = (.err e, r + 1)
    rw [ht]
    exact tryImportGo_err_exhaust outB e r 0 (by simpa using hB1) (by simpa using hB2)

/-- Witness for C2 at `r = 1`: fail-once-then-succeed resolves in 2
invocations; fail-always exhausts in 2 invocations. -/
theorem C2_retry_invocation_counts_witness :
    ((∀ i, i < 1 → isErr ((fun j => if j = 0 then LoadOutcome.err 3 else .ok 7) i) = true) ∧
      (fun j => if j = 0 then LoadOutcome.err 3 else .ok 7) 1 = .ok 7 ∧
      (∀ i, i < 1 → isErr ((fun _ : Nat => LoadOutcome.err 4) i) = true) ∧
      (fun _ : Nat => LoadOutcome.err 4) 1 = .err 4) ∧
    tryImport (fun j => if j = 0 then LoadOutcome.err 3 else .ok 7) ((1 : Nat) : Int) =
      (.ok 7, 2) ∧
    tryImport (fun _ : Nat => LoadOutcome.err 4) ((1 : Nat) : Int) = (.err 4, 2) :=
  ⟨⟨by decide, by decide, by decide, by decide⟩,
    (C2_retry_invocation_counts 1 (fun j => if j = 0 then LoadOutcome.err 3 else .ok 7)
      (fun _ : Nat => LoadOutcome.err 4) 7 4 (by decide) (by decide) (by decide)
      (by decide)).1,
    (C2_retry_invocation_counts 1 (fun j => if j = 0 then LoadOutcome.err 3 else .ok 7)
      (fun _ : Nat => LoadOutcome.err 4) 7 4 (by decide) (by decide) (by decide)
      (by decide)).2⟩

/-- C3: a stored value that is not valid JSON, or is valid JSON but not an
array, reads back as the empty mapping without failing; a malformed element
anywhere in a stored array is filtered out — the surrounding well-formed
entries are kept exactly — and corruption never blocks the recovery flow:
with budget 1 a failing load on malformed storage still reloads as if history
were empty. -/
theorem C3_corrupt_ledger_fail_open :
    getMap .malformed = [] ∧
    (∀ v : JVal, (∀ xs, v ≠ .arr xs) → getMap (.json v) = []) ∧
    (∀ pre post : List JVal, ∀ bad : JVal, decodeEntry bad = none →
      getMap (.json (.arr (pre ++ bad :: post))) = getMap (.json (.arr (pre ++ post)))) ∧
    (∀ m : FnMap, ∀ bad : JVal, nodupKeys m = true → decodeEntry bad = none →
      getMap (.json (.arr (bad :: encodeEntries m))) = m) ∧
    (∀ e : Nat, ∀ ir : Int, ∀ sk : Option String, ∀ k : String,
      safeLazyLoad ⟨⟨1, sk⟩, ir⟩ k (fun _ => .err e) ⟨.malformed, 0⟩ =
        (.nullComponent, ⟨addFunction .malformed k, 1⟩)) := by
  refine ⟨rfl, ?_, ?_, ?_, ?_⟩
  · intro v hv
    cases v with
    | arr xs => exact absurd rfl (hv xs)
    | null => rfl
    | bool b => rfl
    | num n => rfl
    | str s => rfl
    | obj fs => rfl
  · intro pre post bad hbad
    show buildMap _ = buildMap _
    rw [List.filterMap_append, List.filterMap_cons, hbad, List.filterMap_append]
  · intro m bad hnd hbad
    show buildMap _ = m
    rw [List.filterMap_cons, hbad, filterMap_decode_encode]
    exact buildMap_self m hnd
  · intro e ir sk k
    exact safeLazyLoad_fail_reload 1 sk ir e k ⟨.malformed, 0⟩
      (by simp [getMap, mapGet])

/-- Witness for C3: a boolean junk entry is dropped while the neighbouring
well-formed entry survives the read. -/
theorem C3_corrupt_ledger_fail_open_witness :
    (nodupKeys [("f", 2)] = true ∧ decodeEntry (.bool true) = none) ∧
    getMap (.json (.arr (JVal.bool true :: encodeEntries [("f", 2)]))) = [("f", 2)] :=
  ⟨⟨by decide, by decide⟩,
    C3_corrupt_ledger_fail_open.2.2.2.1 [("f", 2)] (.bool true) (by decide) (by decide)⟩

/-- C4: when the wrapped load succeeds and force reload is enabled
(`maxRetries > 0`), the ledger entry for the loader's key is removed — the key
reads back absent, not zero — no reload is issued, and the resolved component
is returned. -/
theorem C4_success_clears_ledger_entry (cfg : SafeLazyConfig) (k : String)
    (outcomes : Nat → LoadOutcome) (w : World) (c : Nat)
    (hm : 0 < cfg.forceReload.maxRetries)
    (hok : (tryImport outcomes cfg.importRetries).1 = .ok c) :
    (safeLazyLoad cfg k outcomes w).1 = .loaded c ∧
    mapGet (getMap (safeLazyLoad cfg k outcomes w).2.storage) k = none ∧
    (safeLazyLoad cfg k outcomes w).2.reloads = w.reloads := by
  have heq := safeLazyLoad_of_ok cfg k outcomes w c hok
  rw [if_pos hm] at heq
  refine ⟨by rw [heq], ?_, by rw [heq]⟩
  rw [heq]
  show mapGet (getMap (removeFunction w.storage k)) k = none
  rw [getMap_removeFunction]
  exact mapGet_mapDelete_self _ k (nodupKeys_getMap w.storage)

/-- Witness for C4 with the default budget and an immediately-successful
loader. -/
theorem C4_success_clears_ledger_entry_witness :
    ((0 : Int) < 1 ∧
      (tryImport (fun _ : Nat => LoadOutcome.ok 9)
        ((⟨⟨1, none⟩, 0⟩ : SafeLazyConfig)).importRetries).1 = .ok 9) ∧
    (safeLazyLoad ⟨⟨1, none⟩, 0⟩ "f" (fun _ => LoadOutcome.ok 9) ⟨.absent, 0⟩).1 =
      .loaded 9 ∧
    mapGet (getMap (safeLazyLoad ⟨⟨1, none⟩, 0⟩ "f" (fun _ => LoadOutcome.ok 9)
      ⟨.absent, 0⟩).2.storage) "f" = none ∧
    (safeLazyLoad ⟨⟨1, none⟩, 0⟩ "f" (fun _ => LoadOutcome.ok 9) ⟨.absent, 0⟩).2.reloads =
      (⟨.absent, 0⟩ : World).reloads :=
  ⟨⟨by decide, by decide⟩,
    C4_success_clears_ledger_entry ⟨⟨1, none⟩, 0⟩ "f" (fun _ => .ok 9) ⟨.absent, 0⟩ 9
      (by decide) (by decide)⟩

/-- C5: `forceReload: false` resolves to `maxRetries = 0`; under that
configuration, starting from any ledger state satisfying the non-negative
count invariant, any number of renders with arbitrary loader outcomes leaves
the world — storage and reload counter — unchanged, so the page reload is
never triggered, and whenever the retry stage exhausts with an error the
wrapper re-throws it. -/
theorem C5_force_reload_disabled_never_reloads (ir : Option Int) (k : String)
    (outs : Nat → Nat → LoadOutcome) (w : World) (n : Nat)
    (hw : nonnegCounts w.storage = true) :
    (createConfig ⟨.disabled, ir⟩).forceReload.maxRetries = 0 ∧
    runRenders (createConfig ⟨.disabled, ir⟩) k outs w n = w ∧
    (∀ i e, (tryImport (outs i) (createConfig ⟨.disabled, ir⟩).importRetries).1 = .err e →
      (safeLazyLoad (createConfig ⟨.disabled, ir⟩) k (outs i)
        (runRenders (createConfig ⟨.disabled, ir⟩) k outs w i)).1 = .thrown e) := by
  have hm : (createConfig ⟨.disabled, ir⟩).forceReload.maxRetries ≤ 0 := le_of_eq rfl
  refine ⟨rfl, runRenders_maxRetries_nonpos _ k outs w hm hw n, ?_⟩
  intro i e he
  rw [runRenders_maxRetries_nonpos _ k outs w hm hw i]
  exact (safeLazyLoad_maxRetries_nonpos _ k (outs i) w hm hw).2.2 e he

/-- Witness for C5: two renders of an always-failing loader with
`forceReload: false` leave the world untouched. -/
theorem C5_force_reload_disabled_never_reloads_witness :
    (nonnegCounts StoredVal.absent = true ∧
      (createConfig ⟨.disabled, none⟩).forceReload.maxRetries = 0) ∧
    runRenders (createConfig ⟨.disabled, none⟩) "f" (fun _ _ => LoadOutcome.err 3)
      ⟨.absent, 0⟩ 2 = ⟨.absent, 0⟩ :=
  ⟨⟨by decide, (C5_force_reload_disabled_never_reloads none "f" (fun _ _ => .err 3)
      ⟨.absent, 0⟩ 2 (by decide)).1⟩,
    (C5_force_reload_disabled_never_reloads none "f" (fun _ _ => .err 3)
      ⟨.absent, 0⟩ 2 (by decide)).2.1⟩

/-- C6: ledger round-trips: increment-then-read yields the previous count
(0 when the key is absent) plus one; remove-then-read shows the key absent;
and serialising a well-formed mapping to the array-of-pairs form and reading
it back is the identity. -/
theorem C6_ledger_round_trip :
    (∀ (s : StoredVal) (k : String),
      mapGet (getMap (addFunction s k)) k = some ((mapGet (getMap s) k).getD 0 + 1)) ∧
    (∀ (s : StoredVal) (k : String), mapGet (getMap (removeFunction s k)) k = none) ∧
    (∀ m : FnMap, nodupKeys m = true → getMap (.json (encodeMap m)) = m) := by
  refine ⟨?_, ?_, ?_⟩
  · intro s k
    rw [getMap_addFunction]
    exact mapGet_mapSet_self _ k _
  · intro s k
    rw [getMap_removeFunction]
    exact mapGet_mapDelete_self _ k (nodupKeys_getMap s)
  · intro m h
    exact getMap_encodeMap m h

/-- Witness for C6: a two-entry mapping survives serialize-then-deserialize. -/
theorem C6_ledger_round_trip_witness :
    nodupKeys [("a", 1), ("b", 2)] = true ∧
    getMap (.json (encodeMap [("a", 1), ("b", 2)])) = [("a", 1), ("b", 2)] :=
  ⟨by decide, C6_ledger_round_trip.2.2 [("a", 1), ("b", 2)] (by decide)⟩

/-- C7: configuration normalization: the no-argument factory resolves to
`maxRetries = 1`, the default storage key and `importRetries = 0`; a partial
`forceReload` object merges with the defaults (`maxRetries` falls back to 1,
`storageKey` to the fixed default); and omitted `importRetries` resolves to 0
for every shape of `forceReload`. -/
theorem C7_config_defaults :
    createConfig ⟨.omitted, none⟩ = ⟨⟨1, none⟩, 0⟩ ∧
    resolvedStorageKey (createConfig ⟨.omitted, none⟩) = defaultStorageKey ∧
    (∀ (p : ForceReloadConfigInit) (ir : Option Int),
      (createConfig ⟨.obj p, ir⟩).forceReload.maxRetries = p.maxRetries.getD 1 ∧
      resolvedStorageKey (createConfig ⟨.obj p, ir⟩) = p.storageKey.getD defaultStorageKey) ∧
    (∀ fr : ForceReloadInit, (createConfig ⟨fr, none⟩).importRetries = 0) := by
  refine ⟨rfl, rfl, ?_, ?_⟩
  · intro p ir
    exact ⟨rfl, rfl⟩
  · intro fr
    rfl

/-- C8: ledger invariant: from any non-negative state every sequence of
increments and removals preserves non-negativity; an increment leaves the
incremented key at a count of at least 1; and an absent key is treated as
count 0 both by the increment (the key reads back as exactly 1) and by the
reload decision (which then reloads exactly when `0 < maxRetries`). -/
theorem C8_count_invariant :
    (∀ (s : StoredVal) (ops : List LedgerOp), nonnegCounts s = true →
      nonnegCounts (applyOps s ops) = true) ∧
    (∀ (s : StoredVal) (k : String), nonnegCounts s = true →
      1 ≤ (mapGet (getMap (addFunction s k)) k).getD 0) ∧
    (∀ (s : StoredVal) (k : String), mapGet (getMap s) k = none →
      mapGet (getMap (addFunction s k)) k = some 1) ∧
    (∀ (cfg : SafeLazyConfig) (k : String) (outcomes : Nat → LoadOutcome)
      (w : World) (e : Nat), mapGet (getMap w.storage) k = none →
      (tryImport outcomes cfg.importRetries).1 = .err e →
      ((safeLazyLoad cfg k outcomes w).1 = .nullComponent ↔
        0 < cfg.forceReload.maxRetries)) := by
  refine ⟨?_, ?_, ?_, ?_⟩
  · intro s ops h
    exact nonnegCounts_applyOps ops s h
  · intro s k h
    rw [getMap_addFunction, mapGet_mapSet_self]
    have := getD_nonneg_of_nonnegCounts s k h
    simp only [Option.getD_some]
    omega
  · intro s k h
    rw [getMap_addFunction, mapGet_mapSet_self, h]
    simp
  · intro cfg k outcomes w e h0 herr
    have heq := safeLazyLoad_of_err cfg k outcomes w e herr
    rw [h0] at heq
    by_cases hm : 0 < cfg.forceReload.maxRetries
    · rw [if_pos (by simpa using hm)] at heq
      simp [heq, hm]
    · rw [if_neg (by simpa using hm)] at heq
      simp [heq, hm]

/-- Witness for C8: incrementing an absent key stores exactly count 1. -/
theorem C8_count_invariant_witness :
    mapGet (getMap StoredVal.absent) "f" = none ∧
    mapGet (getMap (addFunction .absent "f")) "f" = some 1 :=
  ⟨by decide, C8_count_invariant.2.2.1 .absent "f" (by decide)⟩

/-- C9: frame property: incrementing or removing key `k` leaves the persisted
count of every other key unchanged. -/
theorem C9_ledger_frame (s : StoredVal) (k k' : String) (h : k' ≠ k) :
    mapGet (getMap (addFunction s k)) k' = mapGet (getMap s) k' ∧
    mapGet (getMap (removeFunction s k)) k' = mapGet (getMap s) k' := by
  constructor
  · rw [getMap_addFunction]
    exact mapGet_mapSet_ne _ k k' _ h
  · rw [getMap_removeFunction]
    exact mapGet_mapDelete_ne _ k k' h

/-- Witness for C9: incrementing key `a` leaves key `b` unchanged. -/
theorem C9_ledger_frame_witness :
    "b" ≠ "a" ∧
    mapGet (getMap (addFunction (.json (encodeMap [("a", 1), ("b", 2)])) "a")) "b" =
      mapGet (getMap (StoredVal.json (encodeMap [("a", 1), ("b", 2)]))) "b" :=
  ⟨by decide,
    (C9_ledger_frame (.json (encodeMap [("a", 1), ("b", 2)])) "a" "b" (by decide)).1⟩

/-- C10: with resolved `maxRetries = 0` the wrapped loader never writes the
storage slot: the success path skips the ledger removal and, from any state
satisfying the count invariant, the failure path never takes the
increment-and-reload branch, so every invocation leaves the stored value (and
the whole world) unchanged. -/
theorem C10_disabled_reload_never_writes (cfg : SafeLazyConfig) (k : String)
    (outcomes : Nat → LoadOutcome) (w : World)
    (hm : cfg.forceReload.maxRetries = 0) (hw : nonnegCounts w.storage = true) :
    (safeLazyLoad cfg k outcomes w).2.storage = w.storage ∧
    (safeLazyLoad cfg k outcomes w).2 = w := by
  have h := (safeLazyLoad_maxRetries_nonpos cfg k outcomes w (le_of_eq hm) hw).1
  exact ⟨by rw [h], h⟩

/-- Witness for C10: a failing load with `maxRetries = 0` leaves absent
storage absent. -/
theorem C10_disabled_reload_never_writes_witness :
    ((⟨⟨0, none⟩, 0⟩ : SafeLazyConfig).forceReload.maxRetries = 0 ∧
      nonnegCounts StoredVal.absent = true) ∧
    (safeLazyLoad ⟨⟨0, none⟩, 0⟩ "f" (fun _ => LoadOutcome.err 3) ⟨.absent, 0⟩).2.storage =
      StoredVal.absent :=
  ⟨⟨by decide, by decide⟩,
    (C10_disabled_reload_never_writes ⟨⟨0, none⟩, 0⟩ "f" (fun _ => .err 3) ⟨.absent, 0⟩
      (by decide) (by decide)).1⟩

end ReactSafeLazy
